import Mathlib

/-!
Verification of the antsim-flow core against its natural-language
specification.  The Python sources are shallowly embedded into Lean:

* `AntSim.Pheromones` embeds `antsim/core/engine/pheromones.py`
  (`PheromoneField.deposit`, `update_and_swap`, `_diffuse_evaporate_into`)
  with idealized exact rational arithmetic in place of numpy float32.
* `AntSim.BB` embeds `core/blackboard.py` (`Blackboard.set/diff/commit`)
  over a JSON-like value type.
* `AntSim.Exec` embeds `antsim/core/executor.py` (`IntentExecutor`)
  together with the grid shape of `core/environment.py`.
* `AntSim.Trig` embeds `core/triggers_evaluator.py::evaluate`.
* `AntSim.BT` embeds `antsim/behavior/bt.py::StepLeaf` result mapping and
  intent collection.
-/

namespace AntSim
namespace Pheromones

/-- One pheromone layer of `PheromoneField` (`pheromones.py`).  Per type the
Python class keeps `front` (read buffer), `back` (write buffer) and a
`deposit` staging array.  The `back` buffer is fully overwritten inside
`update_and_swap` before it becomes the new `front`, so between ticks only
`front` and the staging array carry state and the embedding keeps those two.
Values are embedded as exact rationals (the source uses numpy float32). -/
structure PheroLayer where
  width : ℕ
  height : ℕ
  alpha : ℚ
  evaporation : ℚ
  front : ℕ → ℕ → ℚ
  dep : ℕ → ℕ → ℚ

/-- `PheromoneField.deposit` for one layer: non-positive amounts and
out-of-bounds coordinates are silently dropped, otherwise the amount is added
to the staging buffer at `[y, x]`. -/
def deposit (P : PheroLayer) (x y : ℤ) (amount : ℚ) : PheroLayer :=
  if amount ≤ 0 then P
  else if ¬ (0 ≤ x ∧ x < (P.width : ℤ) ∧ 0 ≤ y ∧ y < (P.height : ℤ)) then P
  else { P with dep := fun yy xx =>
          if yy = y.toNat ∧ xx = x.toNat then P.dep yy xx + amount else P.dep yy xx }

/-- `_diffuse_evaporate_into`: the 4-neighbour stencil
`(1 - 4α)·c + α·(up + down + left + right)` with edge-replicated (Neumann)
boundaries, then multiplication by `(1 - evaporation)` guarded by
`if self.evaporation > 0.0`.  The numpy rolls with edge overwrite amount to
clamped index shifts: the `up` neighbour of row `y` is row `min (y+1) (h-1)`,
the `down` neighbour is row `y - 1` (truncated at 0), and likewise for
columns. -/
def diffuse_evaporate_into (P : PheroLayer) : ℕ → ℕ → ℚ := fun y x =>
  let b : ℚ := (1 - 4 * P.alpha) * P.front y x
      + P.alpha * (P.front (min (y + 1) (P.height - 1)) x
                 + P.front (y - 1) x
                 + P.front y (min (x + 1) (P.width - 1))
                 + P.front y (x - 1))
  if 0 < P.evaporation then (1 - P.evaporation) * b else b

/-- `_validate_params`: `update_and_swap` raises unless
`0 ≤ evaporation < 1` and `0 ≤ alpha ≤ 0.25`. -/
def validParams (P : PheroLayer) : Prop :=
  0 ≤ P.evaporation ∧ P.evaporation < 1 ∧ 0 ≤ P.alpha ∧ P.alpha ≤ 1 / 4

instance (P : PheroLayer) : Decidable (validParams P) := by
  unfold validParams; infer_instance

/-- The new front buffer produced by one `update_and_swap` for one layer:
diffuse/evaporate `front` into `back`, **then** add the staged deposits,
clamp to non-negative, and swap; the staging buffer is zeroed. -/
def updateCore (P : PheroLayer) : PheroLayer :=
  { P with
    front := fun y x => max (diffuse_evaporate_into P y x + P.dep y x) 0,
    dep := fun _ _ => 0 }

/-- `update_and_swap` (single layer): validates parameters (raising is
modelled as `none`), then produces the new state. -/
def update_and_swap (P : PheroLayer) : Option PheroLayer :=
  if validParams P then some (updateCore P) else none

/-- Iterated `update_and_swap`. -/
def updateN : ℕ → PheroLayer → Option PheroLayer
  | 0, P => some P
  | n + 1, P => (update_and_swap P).bind (updateN n)

/-- `sum(front)` over the `h × w` grid, as in `stats()`/the mass summaries. -/
def mass (w h : ℕ) (f : ℕ → ℕ → ℚ) : ℚ :=
  ∑ y ∈ Finset.range h, ∑ x ∈ Finset.range w, f y x

lemma sum_min_clamp (m : ℕ) (f : ℕ → ℚ) :
    ∑ y ∈ Finset.range (m + 1), f (min (y + 1) m)
      = (∑ y ∈ Finset.range (m + 1), f y) - f 0 + f m := by
  rw [Finset.sum_range_succ (fun y => f (min (y + 1) m)) m]
  have h1 : ∑ y ∈ Finset.range m, f (min (y + 1) m) = ∑ y ∈ Finset.range m, f (y + 1) := by
    refine Finset.sum_congr rfl (fun y hy => ?_)
    rw [min_eq_left (Nat.succ_le_of_lt (Finset.mem_range.mp hy))]
  have h2 := Finset.sum_range_succ' f m
  have h3 : min (m + 1) m = m := min_eq_right (Nat.le_succ m)
  rw [h1, h3]
  linarith

lemma sum_pred_clamp (m : ℕ) (f : ℕ → ℚ) :
    ∑ y ∈ Finset.range (m + 1), f (y - 1)
      = (∑ y ∈ Finset.range (m + 1), f y) - f m + f 0 := by
  rw [Finset.sum_range_succ' (fun y => f (y - 1)) m]
  simp only [Nat.add_sub_cancel, Nat.zero_sub]
  have h2 := Finset.sum_range_succ f m
  linarith

/-- Mass preservation of the pure diffusion stencil under edge-replicated
boundaries: summing the stencil over the grid returns the total mass. -/
lemma mass_stencil (w h : ℕ) (a : ℚ) (f : ℕ → ℕ → ℚ) (hw : w ≠ 0) (hh : h ≠ 0) :
    mass w h (fun y x => (1 - 4 * a) * f y x
      + a * (f (min (y + 1) (h - 1)) x + f (y - 1) x
           + f y (min (x + 1) (w - 1)) + f y (x - 1)))
    = mass w h f := by
  obtain ⟨hm, rfl⟩ : ∃ m, h = m + 1 :=
    ⟨h - 1, (Nat.succ_pred_eq_of_pos (Nat.pos_of_ne_zero hh)).symm⟩
  obtain ⟨wm, rfl⟩ : ∃ m, w = m + 1 :=
    ⟨w - 1, (Nat.succ_pred_eq_of_pos (Nat.pos_of_ne_zero hw)).symm⟩
  simp only [mass, Nat.add_sub_cancel]
  have expand : ∀ y : ℕ,
      ∑ x ∈ Finset.range (wm + 1),
        ((1 - 4 * a) * f y x
          + a * (f (min (y + 1) hm) x + f (y - 1) x
               + f y (min (x + 1) wm) + f y (x - 1)))
      = (1 - 4 * a) * (∑ x ∈ Finset.range (wm + 1), f y x)
        + a * (∑ x ∈ Finset.range (wm + 1), f (min (y + 1) hm) x)
        + a * (∑ x ∈ Finset.range (wm + 1), f (y - 1) x)
        + a * (∑ x ∈ Finset.range (wm + 1), f y (min (x + 1) wm))
        + a * (∑ x ∈ Finset.range (wm + 1), f y (x - 1)) := by
    intro y
    simp only [Finset.mul_sum]
    rw [← Finset.sum_add_distrib, ← Finset.sum_add_distrib, ← Finset.sum_add_distrib,
      ← Finset.sum_add_distrib]
    refine Finset.sum_congr rfl (fun x _ => ?_)
    ring
  calc ∑ y ∈ Finset.range (hm + 1), ∑ x ∈ Finset.range (wm + 1),
        ((1 - 4 * a) * f y x
          + a * (f (min (y + 1) hm) x + f (y - 1) x
               + f y (min (x + 1) wm) + f y (x - 1)))
      = ∑ y ∈ Finset.range (hm + 1),
          ((1 - 4 * a) * (∑ x ∈ Finset.range (wm + 1), f y x)
            + a * (∑ x ∈ Finset.range (wm + 1), f (min (y + 1) hm) x)
            + a * (∑ x ∈ Finset.range (wm + 1), f (y - 1) x)
            + a * (∑ x ∈ Finset.range (wm + 1), f y (min (x + 1) wm))
            + a * (∑ x ∈ Finset.range (wm + 1), f y (x - 1))) :=
        Finset.sum_congr rfl (fun y _ => expand y)
    _ = ∑ y ∈ Finset.range (hm + 1), ∑ x ∈ Finset.range (wm + 1), f y x := by
        simp only [Finset.sum_add_distrib, ← Finset.mul_sum]
        set F : ℕ → ℚ := fun y => ∑ x ∈ Finset.range (wm + 1), f y x with hF
        have hup : ∑ y ∈ Finset.range (hm + 1), F (min (y + 1) hm)
            = (∑ y ∈ Finset.range (hm + 1), F y) - F 0 + F hm := sum_min_clamp hm F
        have hdown : ∑ y ∈ Finset.range (hm + 1), F (y - 1)
            = (∑ y ∈ Finset.range (hm + 1), F y) - F hm + F 0 := sum_pred_clamp hm F
        have hleft : ∀ y : ℕ, ∑ x ∈ Finset.range (wm + 1), f y (min (x + 1) wm)
            = (∑ x ∈ Finset.range (wm + 1), f y x) - f y 0 + f y wm :=
          fun y => sum_min_clamp wm (f y)
        have hright : ∀ y : ℕ, ∑ x ∈ Finset.range (wm + 1), f y (x - 1)
            = (∑ x ∈ Finset.range (wm + 1), f y x) - f y wm + f y 0 :=
          fun y => sum_pred_clamp wm (f y)
        have hL : ∑ y ∈ Finset.range (hm + 1),
              ∑ x ∈ Finset.range (wm + 1), f y (min (x + 1) wm)
            = (∑ y ∈ Finset.range (hm + 1), F y)
              - (∑ y ∈ Finset.range (hm + 1), f y 0)
              + (∑ y ∈ Finset.range (hm + 1), f y wm) := by
          rw [← Finset.sum_sub_distrib, ← Finset.sum_add_distrib]
          exact Finset.sum_congr rfl (fun y _ => hleft y)
        have hR : ∑ y ∈ Finset.range (hm + 1),
              ∑ x ∈ Finset.range (wm + 1), f y (x - 1)
            = (∑ y ∈ Finset.range (hm + 1), F y)
              - (∑ y ∈ Finset.range (hm + 1), f y wm)
              + (∑ y ∈ Finset.range (hm + 1), f y 0) := by
          rw [← Finset.sum_sub_distrib, ← Finset.sum_add_distrib]
          exact Finset.sum_congr rfl (fun y _ => hright y)
        rw [hup, hdown, hL, hR]
        ring

/-- With `0 ≤ e`, the guarded evaporation step `if 0 < e then (1-e)*b else b`
equals the unguarded `(1-e)*b`. -/
lemma evap_scale (e b : ℚ) (he : 0 ≤ e) :
    (if 0 < e then (1 - e) * b else b) = (1 - e) * b := by
  split
  · rfl
  · have : e = 0 := le_antisymm (not_lt.mp (by assumption)) he
    rw [this]; ring

/-- On grid cells, with zero evaporation, zero staged deposits and a
non-negative front buffer with `α ∈ [0, 1/4]`, the new front produced by
`updateCore` is exactly the diffusion stencil (the clamp is a no-op). -/
lemma updateCore_front_on_grid (P : PheroLayer)
    (he : P.evaporation = 0) (ha0 : 0 ≤ P.alpha) (ha1 : P.alpha ≤ 1 / 4)
    (hdep : ∀ y < P.height, ∀ x < P.width, P.dep y x = 0)
    (hf : ∀ y < P.height, ∀ x < P.width, 0 ≤ P.front y x) :
    ∀ y < P.height, ∀ x < P.width,
      (updateCore P).front y x
        = (1 - 4 * P.alpha) * P.front y x
          + P.alpha * (P.front (min (y + 1) (P.height - 1)) x + P.front (y - 1) x
                     + P.front y (min (x + 1) (P.width - 1)) + P.front y (x - 1)) := by
  intro y hy x hx
  have hh : 0 < P.height := lt_of_le_of_lt (Nat.zero_le y) hy
  have hwpos : 0 < P.width := lt_of_le_of_lt (Nat.zero_le x) hx
  have hup : min (y + 1) (P.height - 1) < P.height :=
    lt_of_le_of_lt (min_le_right _ _) (Nat.sub_lt hh Nat.one_pos)
  have hdn : y - 1 < P.height := lt_of_le_of_lt (Nat.sub_le y 1) hy
  have hlf : min (x + 1) (P.width - 1) < P.width :=
    lt_of_le_of_lt (min_le_right _ _) (Nat.sub_lt hwpos Nat.one_pos)
  have hrt : x - 1 < P.width := lt_of_le_of_lt (Nat.sub_le x 1) hx
  have hb : 0 ≤ (1 - 4 * P.alpha) * P.front y x
      + P.alpha * (P.front (min (y + 1) (P.height - 1)) x + P.front (y - 1) x
                 + P.front y (min (x + 1) (P.width - 1)) + P.front y (x - 1)) := by
    have h1 : (0 : ℚ) ≤ 1 - 4 * P.alpha := by linarith
    have h2 : 0 ≤ P.front (min (y + 1) (P.height - 1)) x + P.front (y - 1) x
        + P.front y (min (x + 1) (P.width - 1)) + P.front y (x - 1) := by
      have := hf _ hup _ hx
      have := hf _ hdn _ hx
      have := hf _ hy _ hlf
      have := hf _ hy _ hrt
      linarith
    have := mul_nonneg h1 (hf _ hy _ hx)
    have := mul_nonneg ha0 h2
    linarith
  show max (diffuse_evaporate_into P y x + P.dep y x) 0 = _
  rw [diffuse_evaporate_into, hdep y hy x hx]
  simp only [he, lt_irrefl, if_false, add_zero]
  exact max_eq_left hb

/-- One `update_and_swap` with zero evaporation and no staged deposits
preserves the total front mass. -/
lemma mass_updateCore_pure (P : PheroLayer)
    (hw : P.width ≠ 0) (hh : P.height ≠ 0)
    (he : P.evaporation = 0) (ha0 : 0 ≤ P.alpha) (ha1 : P.alpha ≤ 1 / 4)
    (hdep : ∀ y < P.height, ∀ x < P.width, P.dep y x = 0)
    (hf : ∀ y < P.height, ∀ x < P.width, 0 ≤ P.front y x) :
    mass P.width P.height (updateCore P).front = mass P.width P.height P.front := by
  have hcong : mass P.width P.height (updateCore P).front
      = mass P.width P.height (fun y x => (1 - 4 * P.alpha) * P.front y x
          + P.alpha * (P.front (min (y + 1) (P.height - 1)) x + P.front (y - 1) x
                     + P.front y (min (x + 1) (P.width - 1)) + P.front y (x - 1))) := by
    unfold mass
    refine Finset.sum_congr rfl (fun y hy => Finset.sum_congr rfl (fun x hx => ?_))
    exact updateCore_front_on_grid P he ha0 ha1 hdep hf
      y (Finset.mem_range.mp hy) x (Finset.mem_range.mp hx)
  rw [hcong]
  exact mass_stencil P.width P.height P.alpha P.front hw hh

/-- C8: with `evaporation = 0`, no staged deposits and valid `α`, the total
front mass is invariant under any number of `update_and_swap` calls, and the
validation never raises. -/
theorem C8_mass_invariant_pure_diffusion (P : PheroLayer)
    (hw : P.width ≠ 0) (hh : P.height ≠ 0)
    (he : P.evaporation = 0) (ha0 : 0 ≤ P.alpha) (ha1 : P.alpha ≤ 1 / 4)
    (hdep : ∀ y < P.height, ∀ x < P.width, P.dep y x = 0)
    (hf : ∀ y < P.height, ∀ x < P.width, 0 ≤ P.front y x)
    (n : ℕ) :
    updateN n P = some (updateCore^[n] P)
    ∧ mass P.width P.height ((updateCore^[n] P).front) = mass P.width P.height P.front := by
  induction n generalizing P with
  | zero => exact ⟨rfl, rfl⟩
  | succ n ih =>
    have hvalid : validParams P := ⟨le_of_eq he.symm, by rw [he]; norm_num, ha0, ha1⟩
    have hstep : update_and_swap P = some (updateCore P) := by
      rw [update_and_swap, if_pos hvalid]
    have hdep' : ∀ y < (updateCore P).height, ∀ x < (updateCore P).width,
        (updateCore P).dep y x = 0 := fun _ _ _ _ => rfl
    have hf' : ∀ y < (updateCore P).height, ∀ x < (updateCore P).width,
        0 ≤ (updateCore P).front y x := fun y _ x _ => le_max_right _ _
    have ihP := ih (updateCore P) hw hh he ha0 ha1 hdep' hf'
    refine ⟨?_, ?_⟩
    · rw [updateN, hstep, Option.some_bind, Function.iterate_succ_apply]
      exact ihP.1
    · rw [Function.iterate_succ_apply]
      exact ihP.2.trans (mass_updateCore_pure P hw hh he ha0 ha1 hdep hf)

/-- Concrete 2×2 layer used to witness C8: constant front `1`, `α = 1/4`,
`evaporation = 0`, empty staging buffer. -/
def W8 : PheroLayer :=
  { width := 2, height := 2, alpha := 1 / 4, evaporation := 0,
    front := fun _ _ => 1, dep := fun _ _ => 0 }

/-- Witness for C8 at the concrete layer `W8` with three swaps. -/
theorem C8_mass_invariant_pure_diffusion_witness :
    updateN 3 W8 = some (updateCore^[3] W8)
    ∧ mass W8.width W8.height ((updateCore^[3] W8).front)
      = mass W8.width W8.height W8.front :=
  C8_mass_invariant_pure_diffusion W8 (by decide) (by decide) rfl
    (by show (0:ℚ) ≤ 1 / 4; norm_num) (by show (1:ℚ) / 4 ≤ 1 / 4; norm_num)
    (fun _ _ _ _ => rfl) (fun _ _ _ _ => zero_le_one) 3

lemma sum_indicator (w h Y X : ℕ) (hY : Y < h) (hX : X < w) (a : ℚ) :
    ∑ y ∈ Finset.range h, ∑ x ∈ Finset.range w,
      (if y = Y ∧ x = X then a else 0) = a := by
  have inner : ∀ y : ℕ,
      (∑ x ∈ Finset.range w, if y = Y ∧ x = X then a else 0)
        = if y = Y then a else 0 := by
    intro y
    by_cases hy : y = Y
    · subst hy
      simp only [eq_self_iff_true, true_and, if_true]
      rw [Finset.sum_ite_eq' (Finset.range w) X (fun _ => a)]
      exact if_pos (Finset.mem_range.mpr hX)
    · simp [hy]
  rw [Finset.sum_congr rfl (fun y _ => inner y)]
  rw [Finset.sum_ite_eq' (Finset.range h) Y (fun _ => a)]
  rw [if_pos (Finset.mem_range.mpr hY)]

/-- C1 (amended): with `α = 0`, an in-bounds positive deposit `a` followed by
`update_and_swap` yields `sum(front') = (1 - evaporation) · sum(front) + a`.
The staged deposits are added to the back buffer **after** the back buffer
has been multiplied by `(1 - evaporation)` (the multiplication happens inside
`_diffuse_evaporate_into`, before `b += d` in `update_and_swap`), so the
deposited amount is not evaporated in the tick it is applied: the mass grows
by exactly `a`, not by `a · (1 - evaporation)`. -/
theorem C1_deposit_then_swap (P : PheroLayer) (x y : ℤ) (a : ℚ)
    (hw : P.width ≠ 0) (hh : P.height ≠ 0)
    (hα : P.alpha = 0) (he0 : 0 ≤ P.evaporation) (he1 : P.evaporation < 1)
    (hx0 : 0 ≤ x) (hx1 : x < (P.width : ℤ)) (hy0 : 0 ≤ y) (hy1 : y < (P.height : ℤ))
    (ha : 0 < a)
    (hdep : ∀ yy < P.height, ∀ xx < P.width, P.dep yy xx = 0)
    (hf : ∀ yy < P.height, ∀ xx < P.width, 0 ≤ P.front yy xx) :
    update_and_swap (deposit P x y a) = some (updateCore (deposit P x y a))
    ∧ mass P.width P.height (updateCore (deposit P x y a)).front
      = (1 - P.evaporation) * mass P.width P.height P.front + a := by
  set D := deposit P x y a with hD
  have hDval : D = { P with dep := fun yy xx =>
      if yy = y.toNat ∧ xx = x.toNat then P.dep yy xx + a else P.dep yy xx } := by
    rw [hD, deposit, if_neg (not_le.mpr ha),
      if_neg (not_not_intro ⟨hx0, hx1, hy0, hy1⟩)]
  have hYX : y.toNat < P.height ∧ x.toNat < P.width := by
    constructor
    · exact_mod_cast (Int.toNat_lt' (by omega)).mpr (by omega)
    · exact_mod_cast (Int.toNat_lt' (by omega)).mpr (by omega)
  have hfront : ∀ yy < P.height, ∀ xx < P.width,
      (updateCore D).front yy xx
        = (1 - P.evaporation) * P.front yy xx
          + (P.dep yy xx + if yy = y.toNat ∧ xx = x.toNat then a else 0) := by
    intro yy hyy xx hxx
    have hDdep : D.dep yy xx
        = P.dep yy xx + (if yy = y.toNat ∧ xx = x.toNat then a else 0) := by
      rw [hDval]
      dsimp only
      split
      · rfl
      · rw [add_zero]
    have hDfr : ∀ u v, D.front u v = P.front u v := by intro u v; rw [hDval]
    show max (diffuse_evaporate_into D yy xx + D.dep yy xx) 0 = _
    have hdiff : diffuse_evaporate_into D yy xx
        = (1 - P.evaporation) * P.front yy xx := by
      rw [diffuse_evaporate_into]
      have hw' : D.width = P.width := by rw [hDval]
      have hh' : D.height = P.height := by rw [hDval]
      have hα' : D.alpha = 0 := by rw [hDval]; exact hα
      have he' : D.evaporation = P.evaporation := by rw [hDval]
      simp only [hw', hh', hα', he', hDfr]
      rw [evap_scale _ _ he0]
      ring
    rw [hdiff, hDdep, hdep yy hyy xx hxx, zero_add]
    apply max_eq_left
    have h1 : 0 ≤ (1 - P.evaporation) * P.front yy xx :=
      mul_nonneg (by linarith) (hf yy hyy xx hxx)
    have h2 : (0 : ℚ) ≤ if yy = y.toNat ∧ xx = x.toNat then a else 0 := by
      split
      · exact le_of_lt ha
      · exact le_refl 0
    linarith
  have hvalid : validParams D := by
    rw [hDval]
    exact ⟨he0, he1, le_of_eq hα.symm, by rw [hα]; norm_num⟩
  refine ⟨by rw [update_and_swap, if_pos hvalid], ?_⟩
  have hmass : mass P.width P.height (updateCore D).front
      = mass P.width P.height (fun yy xx =>
          (1 - P.evaporation) * P.front yy xx
            + (P.dep yy xx + if yy = y.toNat ∧ xx = x.toNat then a else 0)) := by
    unfold mass
    refine Finset.sum_congr rfl (fun yy hyy => Finset.sum_congr rfl (fun xx hxx => ?_))
    exact hfront yy (Finset.mem_range.mp hyy) xx (Finset.mem_range.mp hxx)
  rw [hmass]
  unfold mass
  simp only [Finset.sum_add_distrib, ← Finset.mul_sum]
  have hdep0 : ∑ yy ∈ Finset.range P.height, ∑ xx ∈ Finset.range P.width,
      P.dep yy xx = 0 := by
    refine Finset.sum_eq_zero (fun yy hyy => Finset.sum_eq_zero (fun xx hxx => ?_))
    exact hdep yy (Finset.mem_range.mp hyy) xx (Finset.mem_range.mp hxx)
  rw [hdep0, sum_indicator P.width P.height y.toNat x.toNat hYX.1 hYX.2 a]
  ring

/-- Concrete 1×1 layer used against C1 as stated: `α = 0`,
`evaporation = 1/2`, empty front and staging buffers. -/
def C1layer : PheroLayer :=
  { width := 1, height := 1, alpha := 0, evaporation := 1 / 2,
    front := fun _ _ => 0, dep := fun _ _ => 0 }

/-- Counterexample to C1 as stated: depositing `a = 1` on the empty 1×1 layer
with `α = 0`, `evaporation = 1/2` and swapping yields `sum(front') = 1`, an
increase of `1`, whereas the claim predicts an increase of
`a · (1 - evaporation) = 1/2`. -/
theorem C1_deposit_then_swap_counterexample :
    (update_and_swap (deposit C1layer 0 0 1)).map
        (fun Q => mass 1 1 Q.front) = some 1
    ∧ ¬ ((1 : ℚ) - mass 1 1 C1layer.front
          = 1 * (1 - C1layer.evaporation)) := by
  constructor
  · rw [show update_and_swap (deposit C1layer 0 0 1)
        = some (updateCore (deposit C1layer 0 0 1)) from
      (C1_deposit_then_swap C1layer 0 0 1 (by decide) (by decide) rfl
        (by norm_num [C1layer]) (by norm_num [C1layer]) (by decide) (by decide)
        (by decide) (by decide) one_pos
        (fun _ _ _ _ => rfl) (fun _ _ _ _ => le_refl 0)).1]
    rw [Option.map_some']
    congr 1
    have := (C1_deposit_then_swap C1layer 0 0 1 (by decide) (by decide) rfl
        (by norm_num [C1layer]) (by norm_num [C1layer]) (by decide) (by decide)
        (by decide) (by decide) one_pos
        (fun _ _ _ _ => rfl) (fun _ _ _ _ => le_refl 0)).2
    have hm0 : mass C1layer.width C1layer.height C1layer.front = 0 := by
      simp [mass, C1layer]
    show mass C1layer.width C1layer.height (updateCore (deposit C1layer 0 0 1)).front = 1
    rw [this, hm0]
    norm_num [C1layer]
  · have hm0 : mass 1 1 C1layer.front = 0 := by simp [mass, C1layer]
    rw [hm0]
    norm_num [C1layer]

/-- Witness for the amended C1 at the concrete layer `C1layer`. -/
theorem C1_deposit_then_swap_witness :
    update_and_swap (deposit C1layer 0 0 1) = some (updateCore (deposit C1layer 0 0 1))
    ∧ mass C1layer.width C1layer.height (updateCore (deposit C1layer 0 0 1)).front
      = (1 - C1layer.evaporation) * mass C1layer.width C1layer.height C1layer.front + 1 :=
  C1_deposit_then_swap C1layer 0 0 1 (by decide) (by decide) rfl
    (by norm_num [C1layer]) (by norm_num [C1layer]) (by decide) (by decide)
    (by decide) (by decide) one_pos
    (fun _ _ _ _ => rfl) (fun _ _ _ _ => le_refl 0)

end Pheromones

namespace BB

mutual

/-- JSON-representable blackboard values (`core/blackboard.py` stores only
values accepted by `json.dumps`): null, bool, int, string, list, nested
string-keyed mapping.  Lists and dictionaries are given their own mutual
inductives so that structural recursion over nested values stays primitive.
Python floats are not exercised by any claim and are omitted. -/
inductive Val : Type where
  | null : Val
  | bool (b : Bool) : Val
  | int (n : ℤ) : Val
  | str (s : String) : Val
  | vlist (xs : ValList) : Val
  | vdict (kvs : ValDict) : Val

/-- A JSON list. -/
inductive ValList : Type where
  | nil : ValList
  | cons (v : Val) (tl : ValList) : ValList

/-- A JSON object with string keys, in insertion order. -/
inductive ValDict : Type where
  | nil : ValDict
  | cons (k : String) (v : Val) (tl : ValDict) : ValDict

end

mutual

/-- Python `==` on JSON values as used by `Blackboard.set`
(`self._data[key] != value`): structural comparison of the JSON tree, with
Python's numeric cross-type equality `True == 1`, `False == 0`.  Dictionary
entries are compared in their stored order (keys of blackboard payloads are
unique, and the claims only condition on equality holding). -/
def beqVal : Val → Val → Bool
  | .null, .null => true
  | .bool a, .bool b => a == b
  | .bool a, .int n => if a then n == 1 else n == 0
  | .int n, .bool b => if b then n == 1 else n == 0
  | .int a, .int b => a == b
  | .str a, .str b => a == b
  | .vlist a, .vlist b => beqVList a b
  | .vdict a, .vdict b => beqVDict a b
  | _, _ => false

/-- Pointwise Python `==` on JSON lists. -/
def beqVList : ValList → ValList → Bool
  | .nil, .nil => true
  | .cons a as, .cons b bs => beqVal a b && beqVList as bs
  | _, _ => false

/-- Pointwise Python `==` on JSON objects. -/
def beqVDict : ValDict → ValDict → Bool
  | .nil, .nil => true
  | .cons k v tl, .cons j w tw => k == j && beqVal v w && beqVDict tl tw
  | _, _ => false

end

/-- A Python value passed to `Blackboard.set`: either a JSON-serializable
value (on which `json.dumps` succeeds) or an opaque non-serializable object
(on which `json.dumps` raises). -/
inductive PyObj : Type where
  | ser (v : Val) : PyObj
  | nonser (tag : ℕ) : PyObj

/-- Association-list lookup mirroring a Python dict read. -/
def alist_get {α : Type} (l : List (String × α)) (k : String) : Option α :=
  (l.find? (fun p => p.1 == k)).map (fun p => p.2)

/-- Association-list update mirroring a Python dict assignment: replace the
existing entry or append a new one (insertion order preserved). -/
def alist_set {α : Type} (l : List (String × α)) (k : String) (v : α) : List (String × α) :=
  if l.any (fun p => p.1 == k) then
    l.map (fun p => if p.1 == k then (k, v) else p)
  else l ++ [(k, v)]

/-- `core/blackboard.py::Blackboard` state: data store, previous committed
snapshot, staged change set `key → (old, new)` and the record of subscriber
notifications emitted so far (observational, for the atomicity claim). -/
structure Blackboard where
  agent_id : ℤ
  data : List (String × Val)
  previous_data : List (String × Val)
  changes : List (String × (Val × Val))
  notified : List (String × Val)

/-- `Blackboard.__init__`. -/
def initBB (agent_id : ℤ) : Blackboard :=
  { agent_id := agent_id,
    data := [("agent_id", Val.int agent_id), ("cycle", Val.int 0)],
    previous_data := [],
    changes := [],
    notified := [] }

/-- `Blackboard.set`: first validate JSON-serializability (`json.dumps`
happens before any mutation; a failure raises `ValueError`, modelled as
`.error`, with the state untouched).  Then, only if the key is absent or the
stored value differs, record the staged change, store the value, and notify
subscribers. -/
def bbSet (bb : Blackboard) (k : String) (v : PyObj) : Except String Blackboard :=
  match v with
  | .nonser _ => .error ("Value for key " ++ k ++ " must be JSON serializable")
  | .ser v =>
    let changed := match alist_get bb.data k with
      | none => true
      | some old => !(beqVal old v)
    if changed then
      let old := (alist_get bb.data k).getD Val.null
      .ok { bb with
        changes := alist_set bb.changes k (old, v),
        data := alist_set bb.data k v,
        notified := bb.notified ++ [(k, v)] }
    else .ok bb

/-- `Blackboard.diff`: the staged change set (deep copy is identity here). -/
def bbDiff (bb : Blackboard) : List (String × (Val × Val)) :=
  bb.changes

/-- `Blackboard.commit`: return the staged changes, snapshot `data` into
`previous_data`, clear the staged set. -/
def bbCommit (bb : Blackboard) : List (String × (Val × Val)) × Blackboard :=
  (bbDiff bb, { bb with previous_data := bb.data, changes := [] })

/-- C9: `commit` is idempotent — the second of two consecutive commits
returns an empty change set and leaves the state exactly as after the first;
after any commit the staged `diff()` is empty and the committed data is
unchanged. -/
theorem C9_commit_idempotent (bb : Blackboard) :
    (bbCommit (bbCommit bb).2).1 = []
    ∧ (bbCommit (bbCommit bb).2).2 = (bbCommit bb).2
    ∧ bbDiff (bbCommit bb).2 = []
    ∧ (bbCommit bb).2.data = bb.data := by
  refine ⟨rfl, ?_, rfl, rfl⟩
  rfl

/-- C10: `Blackboard.set` with a non-serializable value raises `ValueError`
before touching any state (data, staged changes and notifications are those
of the original blackboard), and `set` with a serializable value equal
(Python `==`) to the currently stored one records no staged change and
notifies no subscriber — the state is returned unchanged. -/
theorem C10_set_atomic_and_no_change (bb : Blackboard) (k : String) :
    (∀ t : ℕ, bbSet bb k (.nonser t)
      = .error ("Value for key " ++ k ++ " must be JSON serializable"))
    ∧ (∀ v w : Val, alist_get bb.data k = some w → beqVal w v = true →
        bbSet bb k (.ser v) = .ok bb) := by
  refine ⟨fun _ => rfl, fun v w hget hbeq => ?_⟩
  rw [bbSet]
  simp only [hget, hbeq, Bool.not_true, if_neg Bool.false_ne_true]

/-- Witness for C10 at the freshly initialized blackboard of agent 1:
re-setting `cycle` to its stored value `0` is a no-op, and setting a
non-serializable object raises. -/
theorem C10_set_atomic_and_no_change_witness :
    bbSet (initBB 1) "cycle" (.ser (Val.int 0)) = .ok (initBB 1)
    ∧ bbSet (initBB 1) "x" (.nonser 0)
      = .error ("Value for key " ++ "x" ++ " must be JSON serializable") :=
  ⟨(C10_set_atomic_and_no_change (initBB 1) "cycle").2 (Val.int 0) (Val.int 0) rfl rfl,
   (C10_set_atomic_and_no_change (initBB 1) "x").1 0⟩

end BB

namespace Exec

/-- Positions are pairs of Python ints. -/
abbrev Pos := ℤ × ℤ

/-- The payload fields of `executor.py` intents that the executor reads.
The Python payload is a string-keyed dict; the typed embedding carries the
keys actually consumed (`int(...)` conversions are identities here, so the
`invalid_target` / `invalid_delta` / `invalid_position` conversion-failure
rejections are unreachable in the embedded fragment). -/
structure Payload where
  target : Option Pos
  delta : Option Pos
  target_id : Option ℤ
  amount : Option ℤ
  ptype : Option String
  strength : ℤ
  position : Option Pos
  food_position : Option Pos
deriving DecidableEq

/-- An empty payload (no keys set, `strength` defaulting to 1 as in
`p.get("strength", 1)`). -/
def Payload.empty : Payload :=
  { target := none, delta := none, target_id := none, amount := none,
    ptype := none, strength := 1, position := none, food_position := none }

/-- `Intent`: type label plus payload. -/
structure Intent where
  type : String
  payload : Payload
deriving DecidableEq

/-- `MoveIntent(target, delta)`. -/
def mkMove (target delta : Option Pos) : Intent :=
  { type := "MOVE", payload := { Payload.empty with target := target, delta := delta } }

/-- `FeedIntent(target_id, amount)`. -/
def mkFeed (target_id : ℤ) (amount : Option ℤ) : Intent :=
  { type := "FEED",
    payload := { Payload.empty with target_id := some target_id, amount := amount } }

/-- A food record on a cell (`environment.py::Cell.food`). -/
structure Food where
  amount : ℤ
deriving DecidableEq

/-- A grid cell (`environment.py::Cell`): discrete type, optional occupant
(ant id), pheromone view, optional food. -/
structure Cell where
  cell_type : String
  ant : Option ℤ
  pheromone_level : ℚ
  pheromones : List (String × ℚ)
  food : Option Food
deriving DecidableEq

/-- A registered agent as the Feed handler sees it (`get_ant_by_id` result
with `stomach_capacity` / `current_stomach` attributes). -/
structure AgentRec where
  id : ℤ
  stomach_capacity : ℤ
  current_stomach : ℤ
deriving DecidableEq

/-- The environment fragment the executor touches
(`environment.py::Environment`): size, grid of cells, ant registry. -/
structure Env where
  width : ℤ
  height : ℤ
  grid : List (List Cell)
  ants : List AgentRec
deriving DecidableEq

/-- The detail part of an `executed` record (the `result`/detail keys the
executor puts into the info dicts it appends to the executed list). -/
inductive ExecDetail where
  | movedTo (new_pos : Pos)
  | fed (transferred : ℤ) (tid : ℤ)
  | pheromoned (ptype : Option String) (position : Pos) (strength : ℤ)
  | collected (amount : ℤ) (source : Pos) (social_stomach : ℤ) (capacity : ℤ)
  | noopRec
deriving DecidableEq

/-- One entry of the executed list: the intent plus its applied detail. -/
structure ExecEntry where
  intent : Intent
  detail : ExecDetail
deriving DecidableEq

/-- One entry of the rejected list: the intent plus the rejection reason. -/
structure RejEntry where
  intent : Intent
  reason : String
deriving DecidableEq

/-- The blackboard keys the executor reads and writes (`position`,
`has_moved`, `intents_executed`, `social_stomach`,
`social_stomach_capacity`).  `position` is kept as a well-formed pair (the
executor itself maintains it as a two-element list). -/
structure ExecBB where
  position : Pos
  has_moved : Bool
  intents_executed : List ExecEntry
  social_stomach : Option ℤ
  social_stomach_capacity : Option ℤ
deriving DecidableEq

/-- The worker as the executor sees it: id, blackboard (always present for
the agents the claims quantify over), and the legacy attribute fallbacks
`current_social_stomach` / `social_stomach_capacity` used when the
blackboard keys are absent. -/
structure Worker where
  id : ℤ
  blackboard : ExecBB
  current_social_stomach : ℤ
  social_stomach_capacity : ℤ
deriving DecidableEq

/-- Python list indexing (non-negative and negative indices); `none` models
an `IndexError`. -/
def pyNormIdx (len : ℕ) (i : ℤ) : Option ℕ :=
  if 0 ≤ i then (if i < (len : ℤ) then some i.toNat else none)
  else (if -i ≤ (len : ℤ) then some (len - (-i).toNat) else none)

/-- `l[i]` with Python semantics. -/
def pyGet {α : Type} (l : List α) (i : ℤ) : Option α :=
  (pyNormIdx l.length i).bind l.get?

/-- In-place update of `l[i]` with Python semantics (no-op models the caller
catching the `IndexError`; callers that let it propagate check `pyGet`
first). -/
def pyModify {α : Type} (l : List α) (i : ℤ) (f : α → α) : List α :=
  match pyNormIdx l.length i with
  | none => l
  | some n =>
    match l.get? n with
    | none => l
    | some v => l.set n (f v)

/-- `env.grid[y][x]`. -/
def gridGetCell (env : Env) (x y : ℤ) : Option Cell :=
  (pyGet env.grid y).bind (fun row => pyGet row x)

/-- Write through `env.grid[y][x]`. -/
def gridSetCell (env : Env) (x y : ℤ) (f : Cell → Cell) : Env :=
  { env with grid := pyModify env.grid y (fun row => pyModify row x f) }

/-- `_env_bounds`: `(width, height)` when both are positive ints, else
`None`. -/
def env_bounds (env : Env) : Option (ℤ × ℤ) :=
  if 0 < env.width ∧ 0 < env.height then some (env.width, env.height) else none

/-- `_within_bounds`: vacuously true without bounds. -/
def within_bounds (pos : Pos) (bounds : Option (ℤ × ℤ)) : Bool :=
  match bounds with
  | none => true
  | some wh => decide (0 ≤ pos.1 ∧ pos.1 < wh.1 ∧ 0 ≤ pos.2 ∧ pos.2 < wh.2)

/-- `_cell_free`: a missing cell (lookup failure) counts as free (the Python
code catches the exception and returns `True`); wall cells and occupied
cells are not free. -/
def cell_free (env : Env) (pos : Pos) : Bool :=
  match gridGetCell env pos.1 pos.2 with
  | none => true
  | some cell =>
    if cell.cell_type = "w" ∨ cell.cell_type = "wall" then false
    else if cell.ant ≠ none then false
    else true

/-- `_move_occupy`: best-effort occupancy rebinding.  If reading the old
cell raises, nothing is mutated; otherwise the old cell is vacated and, if
the new cell is reachable, the worker is installed there. -/
def move_occupy (env : Env) (old_pos new_pos : Pos) (wid : ℤ) : Env :=
  match gridGetCell env old_pos.1 old_pos.2 with
  | none => env
  | some _ =>
    let env1 := gridSetCell env old_pos.1 old_pos.2 (fun c => { c with ant := none })
    match gridGetCell env1 new_pos.1 new_pos.2 with
    | none => env1
    | some _ => gridSetCell env1 new_pos.1 new_pos.2 (fun c => { c with ant := some wid })

/-- `Environment.get_ant_by_id` via the registry. -/
def get_ant_by_id (env : Env) (tid : ℤ) : Option AgentRec :=
  env.ants.find? (fun a => a.id == tid)

/-- Result of `_apply_move`: `(ok, new_pos, reason)` plus the (possibly
mutated) environment. -/
structure MoveOutcome where
  ok : Bool
  new_pos : Option Pos
  reason : Option String
  env : Env
deriving DecidableEq

/-- The shared tail of `_apply_move` once the new position is computed:
bounds check, one-cell Chebyshev step check, collision check, occupancy
rebinding. -/
def apply_move_checks (env : Env) (cur_pos new_pos : Pos)
    (bounds : Option (ℤ × ℤ)) (wid : ℤ) : MoveOutcome :=
  if within_bounds new_pos bounds = false then
    ⟨false, none, some "out_of_bounds", env⟩
  else if 1 < max (new_pos.1 - cur_pos.1).natAbs (new_pos.2 - cur_pos.2).natAbs then
    ⟨false, none, some "too_far", env⟩
  else if cell_free env new_pos = false then
    ⟨false, none, some "blocked", env⟩
  else
    ⟨true, some new_pos, none, move_occupy env cur_pos new_pos wid⟩

/-- `_apply_move`: resolve target/delta (exactly one must be present), then
run the checks. -/
def apply_move (env : Env) (cur_pos : Pos) (it : Intent)
    (bounds : Option (ℤ × ℤ)) (wid : ℤ) : MoveOutcome :=
  match it.payload.target, it.payload.delta with
  | none, none => ⟨false, none, some "no_target_or_delta", env⟩
  | some _, some _ => ⟨false, none, some "ambiguous_move", env⟩
  | some t, none => apply_move_checks env cur_pos t bounds wid
  | none, some d =>
      apply_move_checks env cur_pos (cur_pos.1 + d.1, cur_pos.2 + d.2) bounds wid

/-- The worker social stomach as `_apply_feed` reads it: blackboard key
`social_stomach` with attribute fallback. -/
def bb_social (worker : Worker) (bb : ExecBB) : ℤ :=
  match bb.social_stomach with
  | some s => s
  | none => worker.current_social_stomach

/-- Result of `_apply_feed`. -/
structure FeedOutcome where
  ok : Bool
  reason : Option String
  transferred : Option ℤ
  target_id : Option ℤ
  bb : ExecBB
  env : Env
deriving DecidableEq

/-- `_apply_feed`: look up the target in the registry, check social food and
free stomach capacity, transfer `min(social, free, max(0, amount?))`,
increment the target stomach and decrement the worker social stomach. -/
def apply_feed (worker : Worker) (bb : ExecBB) (env : Env) (it : Intent) : FeedOutcome :=
  match it.payload.target_id with
  | none => ⟨false, some "missing_target", none, none, bb, env⟩
  | some tgt =>
    match get_ant_by_id env tgt with
    | none => ⟨false, some "target_not_found", none, none, bb, env⟩
    | some target =>
      let social := bb_social worker bb
      if social ≤ 0 then ⟨false, some "no_social_food", none, none, bb, env⟩
      else
        let free := max 0 (target.stomach_capacity - target.current_stomach)
        if free ≤ 0 then ⟨false, some "target_full", none, none, bb, env⟩
        else
          let transfer :=
            match it.payload.amount with
            | none => min social free
            | some a => min (min social free) (max 0 a)
          let env1 := { env with ants := env.ants.map (fun a =>
            if a.id == tgt then { a with current_stomach := target.current_stomach + transfer }
            else a) }
          let bb1 := { bb with social_stomach := some (social - transfer) }
          ⟨true, none, some transfer, some target.id, bb1, env1⟩

/-- `str(x)` on an optional string (Python renders `None` as `"None"`). -/
def pyStr (o : Option String) : String :=
  match o with
  | some s => s
  | none => "None"

/-- `Cell.add_pheromone` (`environment.py`): clamp the strength at 0, add to
the per-type map and the legacy sum.  The mirror into the double-buffer
`PheromoneField.deposit` staging is the separately embedded
`Pheromones.deposit`; it does not feed back into any executor state. -/
def add_pheromone (c : Cell) (ptype : Option String) (strength : ℤ) : Cell :=
  let key := pyStr ptype
  let sval : ℚ := max 0 (strength : ℚ)
  let old : ℚ := match BB.alist_get c.pheromones key with
    | some v => v
    | none => 0
  { c with pheromones := BB.alist_set c.pheromones key (old + sval),
           pheromone_level := c.pheromone_level + sval }

/-- Result of `_apply_pheromone`. -/
structure PherOutcome where
  ok : Bool
  reason : Option String
  env : Env
deriving DecidableEq

/-- `_apply_pheromone`: position defaults to the worker cell; a cell-lookup
failure rejects with `env_cell_unavailable`; otherwise the deposit goes
through `Cell.add_pheromone`. -/
def apply_pheromone (env : Env) (it : Intent) (cur_pos : Pos) : PherOutcome :=
  let t : Pos := match it.payload.position with
    | none => cur_pos
    | some p => p
  match gridGetCell env t.1 t.2 with
  | none => ⟨false, some "env_cell_unavailable", env⟩
  | some _ =>
      ⟨true, none, gridSetCell env t.1 t.2
        (fun c => add_pheromone c it.payload.ptype it.payload.strength)⟩

/-- Result of `_apply_collect_food`. -/
structure CollectOutcome where
  ok : Bool
  reason : Option String
  collected : Option ℤ
  source : Option Pos
  new_social : Option ℤ
  capacity : Option ℤ
  bb : ExecBB
  env : Env
deriving DecidableEq

/-- `_apply_collect_food`: source defaults to `food_position`, then
`position`, then the blackboard position; transfers
`min(requested, free_capacity, available)` from the cell food into the
worker social stomach, clearing the cell food when depleted. -/
def apply_collect_food (worker : Worker) (bb : ExecBB) (env : Env) (it : Intent) :
    CollectOutcome :=
  let cur := bb.position
  let src : Pos := match it.payload.food_position with
    | some p => p
    | none =>
      match it.payload.position with
      | some p => p
      | none => cur
  let requested : ℤ := match it.payload.amount with
    | some a => a
    | none => 10
  if requested ≤ 0 then ⟨false, some "non_positive_amount", none, none, none, none, bb, env⟩
  else
    let social := bb_social worker bb
    let cap : ℤ := match bb.social_stomach_capacity with
      | some c => c
      | none => worker.social_stomach_capacity
    let free_capacity := max 0 (cap - social)
    if free_capacity ≤ 0 then ⟨false, some "no_capacity", none, none, none, none, bb, env⟩
    else
      match gridGetCell env src.1 src.2 with
      | none => ⟨false, some "env_cell_unavailable", none, none, none, none, bb, env⟩
      | some cell =>
        let available : ℤ := match cell.food with
          | some f => f.amount
          | none => 0
        if available ≤ 0 then ⟨false, some "no_food", none, none, none, none, bb, env⟩
        else
          let collect_amt := min requested (min free_capacity available)
          if collect_amt ≤ 0 then
            ⟨false, some "nothing_to_collect", none, none, none, none, bb, env⟩
          else
            let env1 := gridSetCell env src.1 src.2 (fun c =>
              if available - collect_amt ≤ 0 then { c with food := none }
              else { c with food := some ⟨available - collect_amt⟩ })
            let new_social := social + collect_amt
            let bb1 := { bb with social_stomach := some new_social }
            ⟨true, none, some collect_amt, some src, some new_social, some cap, bb1, env1⟩

/-- The per-intent outcome inside `apply_intents`: exactly one executed or
rejected entry, plus the updated loop state. -/
structure StepOut where
  out : Sum ExecEntry RejEntry
  moved : Bool
  cur : Pos
  bb : ExecBB
  env : Env

/-- One iteration of the `apply_intents` loop over a normalized intent. -/
def step_intent (worker : Worker) (bounds : Option (ℤ × ℤ)) (it : Intent)
    (moved : Bool) (cur : Pos) (bb : ExecBB) (env : Env) : StepOut :=
  if it.type = "MOVE" then
    if moved then ⟨.inr ⟨it, "move_already_done"⟩, moved, cur, bb, env⟩
    else
      let m := apply_move env cur it bounds worker.id
      match m.new_pos, m.ok with
      | some np, true =>
          ⟨.inl ⟨it, .movedTo np⟩, true, np,
            { bb with position := np, has_moved := true }, m.env⟩
      | _, _ =>
          ⟨.inr ⟨it, (match m.reason with | some s => s | none => "move_invalid")⟩,
            moved, cur, bb, m.env⟩
  else if it.type = "FEED" then
    let f := apply_feed worker bb env it
    if f.ok then
      ⟨.inl ⟨it, .fed (f.transferred.getD 0) (f.target_id.getD 0)⟩, moved, cur, f.bb, f.env⟩
    else
      ⟨.inr ⟨it, f.reason.getD "feed_failed"⟩, moved, cur, f.bb, f.env⟩
  else if it.type = "PHEROMONE" then
    let p := apply_pheromone env it cur
    if p.ok then
      let t : Pos := match it.payload.position with
        | none => cur
        | some q => q
      ⟨.inl ⟨it, .pheromoned it.payload.ptype t it.payload.strength⟩, moved, cur, bb, p.env⟩
    else ⟨.inr ⟨it, p.reason.getD "pheromone_failed"⟩, moved, cur, bb, p.env⟩
  else if it.type = "COLLECT_FOOD" then
    let c := apply_collect_food worker bb env it
    if c.ok then
      ⟨.inl ⟨it, .collected (c.collected.getD 0) (c.source.getD cur)
          (c.new_social.getD 0) (c.capacity.getD 0)⟩, moved, cur, c.bb, c.env⟩
    else ⟨.inr ⟨it, c.reason.getD "collect_failed"⟩, moved, cur, c.bb, c.env⟩
  else
    ⟨.inl ⟨it, .noopRec⟩, moved, cur, bb, env⟩

/-- The accumulated outcome of the `apply_intents` loop. -/
structure LoopOut where
  executed : List ExecEntry
  rejected : List RejEntry
  bb : ExecBB
  env : Env
deriving DecidableEq

/-- The `apply_intents` loop over the normalized intent list, threading the
single-move flag, the current position, the blackboard and the
environment. -/
def exec_loop (worker : Worker) (bounds : Option (ℤ × ℤ)) :
    List Intent → Bool → Pos → ExecBB → Env → LoopOut
  | [], _, _, bb, env => ⟨[], [], bb, env⟩
  | it :: rest, moved, cur, bb, env =>
    let s := step_intent worker bounds it moved cur bb env
    let r := exec_loop worker bounds rest s.moved s.cur s.bb s.env
    match s.out with
    | .inl e => ⟨e :: r.executed, r.rejected, r.bb, r.env⟩
    | .inr rj => ⟨r.executed, rj :: r.rejected, r.bb, r.env⟩

/-- The value returned by `apply_intents` plus the final blackboard and
environment. -/
structure ApplyResult where
  executed : List ExecEntry
  rejected : List RejEntry
  reason : Option String
  bb : ExecBB
  env : Env
deriving DecidableEq

/-- `IntentExecutor.apply_intents`: early return on an empty batch;
otherwise read position/bounds/`has_moved`, process every intent in order,
then append the executed list (only) to the blackboard key
`intents_executed`. -/
def apply_intents (worker : Worker) (env : Env) (intents : List Intent) : ApplyResult :=
  if intents = [] then ⟨[], [], some "no_intents", worker.blackboard, env⟩
  else
    let bb := worker.blackboard
    let r := exec_loop worker (env_bounds env) intents bb.has_moved bb.position bb env
    ⟨r.executed, r.rejected, none,
      { r.bb with intents_executed := r.bb.intents_executed ++ r.executed }, r.env⟩
/-- An executed entry stemming from a Move intent. -/
def isMoveEntry (e : ExecEntry) : Bool := e.intent.type == "MOVE"

lemma apply_feed_bb_fields (w : Worker) (bb : ExecBB) (env : Env) (it : Intent) :
    (apply_feed w bb env it).bb.has_moved = bb.has_moved
    ∧ (apply_feed w bb env it).bb.intents_executed = bb.intents_executed
    ∧ (apply_feed w bb env it).bb.position = bb.position := by
  unfold apply_feed
  dsimp only
  repeat' split
  all_goals exact ⟨rfl, rfl, rfl⟩

lemma apply_collect_bb_fields (w : Worker) (bb : ExecBB) (env : Env) (it : Intent) :
    (apply_collect_food w bb env it).bb.has_moved = bb.has_moved
    ∧ (apply_collect_food w bb env it).bb.intents_executed = bb.intents_executed
    ∧ (apply_collect_food w bb env it).bb.position = bb.position := by
  unfold apply_collect_food
  dsimp only
  repeat' split
  all_goals exact ⟨rfl, rfl, rfl⟩

lemma step_move_already (w : Worker) (bo : Option (ℤ × ℤ)) (it : Intent)
    (moved : Bool) (cur : Pos) (bb : ExecBB) (env : Env)
    (hty : it.type = "MOVE") (hm : moved = true) :
    step_intent w bo it moved cur bb env
      = ⟨.inr ⟨it, "move_already_done"⟩, moved, cur, bb, env⟩ := by
  unfold step_intent
  rw [if_pos hty, if_pos hm]

lemma step_nonmove_props (w : Worker) (bo : Option (ℤ × ℤ)) (it : Intent)
    (moved : Bool) (cur : Pos) (bb : ExecBB) (env : Env)
    (hty : ¬ it.type = "MOVE") :
    (step_intent w bo it moved cur bb env).moved = moved
    ∧ (step_intent w bo it moved cur bb env).bb.has_moved = bb.has_moved
    ∧ (step_intent w bo it moved cur bb env).bb.intents_executed = bb.intents_executed
    ∧ (∀ e, (step_intent w bo it moved cur bb env).out = .inl e → e.intent = it)
    ∧ (∀ rj, (step_intent w bo it moved cur bb env).out = .inr rj → rj.intent = it) := by
  unfold step_intent
  rw [if_neg hty]
  dsimp only
  repeat' split
  all_goals refine ⟨rfl, ?_, ?_, fun e h => ?_, fun rj h => ?_⟩
  all_goals first
    | exact (apply_feed_bb_fields w bb env it).1
    | exact (apply_feed_bb_fields w bb env it).2.1
    | exact (apply_collect_bb_fields w bb env it).1
    | exact (apply_collect_bb_fields w bb env it).2.1
    | rfl
    | cases h
    | (injection h with h2; rw [← h2])
  all_goals rfl

lemma step_move_cases (w : Worker) (bo : Option (ℤ × ℤ)) (it : Intent)
    (moved : Bool) (cur : Pos) (bb : ExecBB) (env : Env)
    (hty : it.type = "MOVE") (hm : moved = false) :
    (∃ np, (step_intent w bo it moved cur bb env).out = .inl ⟨it, .movedTo np⟩
        ∧ (step_intent w bo it moved cur bb env).moved = true
        ∧ (step_intent w bo it moved cur bb env).bb.has_moved = true
        ∧ (step_intent w bo it moved cur bb env).bb.intents_executed = bb.intents_executed)
    ∨ (∃ rj, (step_intent w bo it moved cur bb env).out = .inr rj
        ∧ (step_intent w bo it moved cur bb env).moved = moved
        ∧ (step_intent w bo it moved cur bb env).bb = bb) := by
  unfold step_intent
  rw [if_pos hty, if_neg (by rw [hm]; exact Bool.false_ne_true)]
  dsimp only
  rcases h1 : (apply_move env cur it bo w.id).new_pos with _ | np
  · cases h2 : (apply_move env cur it bo w.id).ok
    · exact Or.inr ⟨_, rfl, rfl, rfl⟩
    · exact Or.inr ⟨_, rfl, rfl, rfl⟩
  · cases h2 : (apply_move env cur it bo w.id).ok
    · exact Or.inr ⟨_, rfl, rfl, rfl⟩
    · exact Or.inl ⟨np, rfl, rfl, rfl, rfl⟩
lemma step_intents_executed (w : Worker) (bo : Option (ℤ × ℤ)) (it : Intent)
    (moved : Bool) (cur : Pos) (bb : ExecBB) (env : Env) :
    (step_intent w bo it moved cur bb env).bb.intents_executed = bb.intents_executed := by
  by_cases hty : it.type = "MOVE"
  · by_cases hm : moved = true
    · rw [step_move_already w bo it moved cur bb env hty hm]
    · rcases step_move_cases w bo it moved cur bb env hty (by revert hm; cases moved <;> simp)
        with ⟨np, _, _, _, hie⟩ | ⟨rj, _, _, hbb⟩
      · exact hie
      · rw [hbb]
  · exact (step_nonmove_props w bo it moved cur bb env hty).2.2.1

lemma step_has_moved_mono (w : Worker) (bo : Option (ℤ × ℤ)) (it : Intent)
    (moved : Bool) (cur : Pos) (bb : ExecBB) (env : Env)
    (hbb : bb.has_moved = true) :
    (step_intent w bo it moved cur bb env).bb.has_moved = true := by
  by_cases hty : it.type = "MOVE"
  · by_cases hm : moved = true
    · rw [step_move_already w bo it moved cur bb env hty hm]; exact hbb
    · rcases step_move_cases w bo it moved cur bb env hty (by revert hm; cases moved <;> simp)
        with ⟨np, _, _, hhm, _⟩ | ⟨rj, _, _, hbbeq⟩
      · exact hhm
      · rw [hbbeq]; exact hbb
  · rw [(step_nonmove_props w bo it moved cur bb env hty).2.1]; exact hbb

lemma exec_loop_intents_executed (w : Worker) (bo : Option (ℤ × ℤ)) :
    ∀ (l : List Intent) (moved : Bool) (cur : Pos) (bb : ExecBB) (env : Env),
    (exec_loop w bo l moved cur bb env).bb.intents_executed = bb.intents_executed := by
  intro l
  induction l with
  | nil => intro moved cur bb env; rfl
  | cons it rest ih =>
    intro moved cur bb env
    simp only [exec_loop]
    rcases ho : (step_intent w bo it moved cur bb env).out with e | rj <;>
      dsimp only <;> rw [ih] <;>
      exact step_intents_executed w bo it moved cur bb env

lemma exec_loop_has_moved_mono (w : Worker) (bo : Option (ℤ × ℤ)) :
    ∀ (l : List Intent) (moved : Bool) (cur : Pos) (bb : ExecBB) (env : Env),
    bb.has_moved = true →
    (exec_loop w bo l moved cur bb env).bb.has_moved = true := by
  intro l
  induction l with
  | nil => intro moved cur bb env hbb; exact hbb
  | cons it rest ih =>
    intro moved cur bb env hbb
    simp only [exec_loop]
    rcases ho : (step_intent w bo it moved cur bb env).out with e | rj <;>
      dsimp only <;>
      exact ih _ _ _ _ (step_has_moved_mono w bo it moved cur bb env hbb)

lemma exec_loop_moved_true (w : Worker) (bo : Option (ℤ × ℤ)) :
    ∀ (l : List Intent) (cur : Pos) (bb : ExecBB) (env : Env),
    ((exec_loop w bo l true cur bb env).executed.filter isMoveEntry = [])
    ∧ (∀ it ∈ l, it.type = "MOVE" →
        (⟨it, "move_already_done"⟩ : RejEntry) ∈ (exec_loop w bo l true cur bb env).rejected)
    ∧ (exec_loop w bo l true cur bb env).bb.has_moved = bb.has_moved := by
  intro l
  induction l with
  | nil =>
    intro cur bb env
    exact ⟨rfl, fun it h => absurd h (List.not_mem_nil it), rfl⟩
  | cons it rest ih =>
    intro cur bb env
    by_cases hty : it.type = "MOVE"
    · simp only [exec_loop, step_move_already w bo it true cur bb env hty rfl]
      refine ⟨(ih cur bb env).1, ?_, (ih cur bb env).2.2⟩
      intro it2 hmem hty2
      rcases List.mem_cons.mp hmem with h | h
      · subst h; exact List.mem_cons_self _ _
      · exact List.mem_cons_of_mem _ ((ih cur bb env).2.1 it2 h hty2)
    · obtain ⟨hmv, hhm, hie, hinl, hinr⟩ := step_nonmove_props w bo it true cur bb env hty
      simp only [exec_loop]
      rcases ho : (step_intent w bo it true cur bb env).out with e | rj <;> dsimp only <;>
        rw [hmv]
      · have hnm : isMoveEntry e = false := by
          rw [isMoveEntry, hinl e ho]
          exact beq_eq_false_iff_ne.mpr hty
        refine ⟨?_, ?_, ?_⟩
        · rw [List.filter_cons, if_neg (by rw [hnm]; exact Bool.false_ne_true)]
          exact (ih _ _ _).1
        · intro it2 hmem hty2
          rcases List.mem_cons.mp hmem with h | h
          · subst h; exact absurd hty2 hty
          · exact (ih _ _ _).2.1 it2 h hty2
        · rw [(ih _ _ _).2.2]; exact hhm
      · refine ⟨(ih _ _ _).1, ?_, ?_⟩
        · intro it2 hmem hty2
          rcases List.mem_cons.mp hmem with h | h
          · subst h; exact absurd hty2 hty
          · exact List.mem_cons_of_mem _ ((ih _ _ _).2.1 it2 h hty2)
        · rw [(ih _ _ _).2.2]; exact hhm

lemma exec_loop_filter_le (w : Worker) (bo : Option (ℤ × ℤ)) :
    ∀ (l : List Intent) (moved : Bool) (cur : Pos) (bb : ExecBB) (env : Env),
    ((exec_loop w bo l moved cur bb env).executed.filter isMoveEntry).length ≤ 1 := by
  intro l
  induction l with
  | nil => intro moved cur bb env; simp [exec_loop]
  | cons it rest ih =>
    intro moved cur bb env
    by_cases hty : it.type = "MOVE"
    · by_cases hm : moved = true
      · subst hm
        simp only [exec_loop, step_move_already w bo it true cur bb env hty rfl]
        rw [(exec_loop_moved_true w bo rest cur bb env).1]
        exact Nat.zero_le 1
      · have hm0 : moved = false := by revert hm; cases moved <;> simp
        rcases step_move_cases w bo it moved cur bb env hty hm0
          with ⟨np, hout, hmvd, _, _⟩ | ⟨rj, hout, hmvd, _⟩
        · simp only [exec_loop]
          rw [hout]
          dsimp only
          have hpos : isMoveEntry (⟨it, .movedTo np⟩ : ExecEntry) = true := by
            rw [isMoveEntry]; exact beq_iff_eq.mpr hty
          rw [List.filter_cons, if_pos hpos, hmvd,
            (exec_loop_moved_true w bo rest _ _ _).1]
          exact le_refl 1
        · simp only [exec_loop]
          rw [hout]
          dsimp only
          rw [hmvd]
          exact ih moved _ _ _
    · obtain ⟨hmv, _, _, hinl, _⟩ := step_nonmove_props w bo it moved cur bb env hty
      simp only [exec_loop]
      rcases ho : (step_intent w bo it moved cur bb env).out with e | rj <;> dsimp only <;>
        rw [hmv]
      · rw [List.filter_cons,
          if_neg (by rw [isMoveEntry, hinl e ho, beq_eq_false_iff_ne.mpr hty]
                     exact Bool.false_ne_true)]
        exact ih moved _ _ _
      · exact ih moved _ _ _

lemma exec_loop_exec_move_hasmoved (w : Worker) (bo : Option (ℤ × ℤ)) :
    ∀ (l : List Intent) (moved : Bool) (cur : Pos) (bb : ExecBB) (env : Env)
      (e : ExecEntry),
    e ∈ (exec_loop w bo l moved cur bb env).executed → isMoveEntry e = true →
    (exec_loop w bo l moved cur bb env).bb.has_moved = true := by
  intro l
  induction l with
  | nil => intro moved cur bb env e he _; exact absurd he (List.not_mem_nil e)
  | cons it rest ih =>
    intro moved cur bb env e he hm
    by_cases hty : it.type = "MOVE"
    · by_cases hmvd : moved = true
      · subst hmvd
        simp only [exec_loop, step_move_already w bo it true cur bb env hty rfl] at he ⊢
        exact ih _ _ _ _ e he hm
      · have hm0 : moved = false := by revert hmvd; cases moved <;> simp
        rcases step_move_cases w bo it moved cur bb env hty hm0
          with ⟨np, hout, _, hhm, _⟩ | ⟨rj, hout, _, _⟩
        · simp only [exec_loop] at he ⊢
          rw [hout] at he ⊢
          dsimp only at he ⊢
          exact exec_loop_has_moved_mono w bo rest _ _ _ _ hhm
        · simp only [exec_loop] at he ⊢
          rw [hout] at he ⊢
          dsimp only at he ⊢
          exact ih _ _ _ _ e he hm
    · obtain ⟨_, _, _, hinl, _⟩ := step_nonmove_props w bo it moved cur bb env hty
      simp only [exec_loop] at he ⊢
      rcases ho : (step_intent w bo it moved cur bb env).out with e2 | rj2 <;>
        rw [ho] at he <;> dsimp only at he ⊢
      · rcases List.mem_cons.mp he with h | h
        · subst h
          rw [isMoveEntry, hinl e ho] at hm
          exact absurd (beq_iff_eq.mp hm) hty
        · exact ih _ _ _ _ e h hm
      · exact ih _ _ _ _ e he hm
/-- C3: at most one Move intent is executed per `apply_intents` batch; if the
agent has already moved this tick (`has_moved = true`, which persists across
batches until `reset_worker_cycle`), no Move executes and every Move intent
in the batch is rejected with reason `move_already_done`; and whenever a
Move entry was executed the blackboard ends the call with
`has_moved = true`. -/
theorem C3_single_move_per_tick (worker : Worker) (env : Env) (intents : List Intent) :
    (((apply_intents worker env intents).executed.filter isMoveEntry).length ≤ 1)
    ∧ (worker.blackboard.has_moved = true →
        (apply_intents worker env intents).executed.filter isMoveEntry = []
        ∧ ∀ it ∈ intents, it.type = "MOVE" →
            (⟨it, "move_already_done"⟩ : RejEntry) ∈ (apply_intents worker env intents).rejected)
    ∧ (∀ e ∈ (apply_intents worker env intents).executed, isMoveEntry e = true →
        (apply_intents worker env intents).bb.has_moved = true) := by
  by_cases hnil : intents = []
  · subst hnil
    refine ⟨by simp [apply_intents], fun _ => ⟨by simp [apply_intents], ?_⟩, ?_⟩
    · intro it h; exact absurd h (List.not_mem_nil it)
    · intro e he
      rw [show (apply_intents worker env []).executed = [] from rfl] at he
      exact absurd he (List.not_mem_nil e)
  · unfold apply_intents
    rw [if_neg hnil]
    dsimp only
    refine ⟨exec_loop_filter_le worker (env_bounds env) intents _ _ _ _,
      fun hmv => ?_, fun e he hm => ?_⟩
    · rw [hmv]
      exact ⟨(exec_loop_moved_true worker (env_bounds env) intents _ _ _).1,
        (exec_loop_moved_true worker (env_bounds env) intents _ _ _).2.1⟩
    · exact exec_loop_exec_move_hasmoved worker (env_bounds env) intents _ _ _ _ e he hm

/-- A worker that has already moved this tick, standing at the origin. -/
def WC3 : Worker :=
  { id := 1,
    blackboard := { position := (0, 0), has_moved := true, intents_executed := [],
                    social_stomach := none, social_stomach_capacity := none },
    current_social_stomach := 0, social_stomach_capacity := 0 }

/-- A 2×1 environment with the worker registered at the origin cell. -/
def EC3 : Env :=
  { width := 2, height := 1,
    grid := [[{ cell_type := "empty", ant := some 1, pheromone_level := 0,
                pheromones := [], food := none },
              { cell_type := "empty", ant := none, pheromone_level := 0,
                pheromones := [], food := none }]],
    ants := [] }

/-- A Move intent one cell to the right. -/
def IC3 : Intent := mkMove (some (1, 0)) none

/-- Witness for C3: with `has_moved` already true, the batch `[IC3]`
executes no Move and rejects it with `move_already_done`. -/
theorem C3_single_move_per_tick_witness :
    WC3.blackboard.has_moved = true
    ∧ ((apply_intents WC3 EC3 [IC3]).executed.filter isMoveEntry = []
       ∧ ∀ it ∈ [IC3], it.type = "MOVE" →
           (⟨it, "move_already_done"⟩ : RejEntry) ∈ (apply_intents WC3 EC3 [IC3]).rejected) :=
  ⟨rfl, (C3_single_move_per_tick WC3 EC3 [IC3]).2.1 rfl⟩

/-- C5 (amended): after `apply_intents`, the blackboard key
`intents_executed` has been extended by exactly the executed list of that
call — the rejected list is *not* appended (it is only returned and logged:
`executor.py` lines 279-281 append `executed` alone). -/
theorem C5_intents_executed_append (worker : Worker) (env : Env) (intents : List Intent) :
    (apply_intents worker env intents).bb.intents_executed
      = worker.blackboard.intents_executed ++ (apply_intents worker env intents).executed := by
  by_cases hnil : intents = []
  · subst hnil
    show worker.blackboard.intents_executed
      = worker.blackboard.intents_executed ++ []
    rw [List.append_nil]
  · unfold apply_intents
    rw [if_neg hnil]
    dsimp only
    rw [exec_loop_intents_executed]

/-- Counterexample to C5 as stated: the batch `[IC3]` against the
already-moved worker `WC3` produces a non-empty rejected list, yet
`intents_executed` on the blackboard stays empty — the rejection entry is
not appended there. -/
theorem C5_counterexample :
    (apply_intents WC3 EC3 [IC3]).rejected = [⟨IC3, "move_already_done"⟩]
    ∧ (apply_intents WC3 EC3 [IC3]).bb.intents_executed = [] :=
  ⟨rfl, rfl⟩
/-- C2 (amended): a Move intent targeting the agent's own current in-bounds
cell always passes the bounds and one-cell-step checks (it is never rejected
with `out_of_bounds` or `too_far`), but it is *not* unconditionally executed:
`_cell_free` is consulted on the target cell, and since the standard
`Environment` marks a registered agent's cell with `cell.ant`, the move is
rejected with `blocked` whenever the current cell carries an occupant (in
particular the agent itself); only when the cell is unmarked does the move
execute as a positional no-op that sets `has_moved`. -/
theorem C2_move_to_current_cell (worker : Worker) (env : Env)
    (hmv : worker.blackboard.has_moved = false)
    (hw : 0 < env.width) (hh : 0 < env.height)
    (hin : 0 ≤ worker.blackboard.position.1 ∧ worker.blackboard.position.1 < env.width
         ∧ 0 ≤ worker.blackboard.position.2 ∧ worker.blackboard.position.2 < env.height) :
    (cell_free env worker.blackboard.position = false →
        (apply_intents worker env [mkMove (some worker.blackboard.position) none]).rejected
          = [⟨mkMove (some worker.blackboard.position) none, "blocked"⟩]
        ∧ (apply_intents worker env [mkMove (some worker.blackboard.position) none]).executed = []
        ∧ (apply_intents worker env [mkMove (some worker.blackboard.position) none]).bb.position
          = worker.blackboard.position
        ∧ (apply_intents worker env
            [mkMove (some worker.blackboard.position) none]).bb.has_moved = false)
    ∧ (cell_free env worker.blackboard.position = true →
        (apply_intents worker env [mkMove (some worker.blackboard.position) none]).executed
          = [⟨mkMove (some worker.blackboard.position) none,
              .movedTo worker.blackboard.position⟩]
        ∧ (apply_intents worker env [mkMove (some worker.blackboard.position) none]).rejected = []
        ∧ (apply_intents worker env [mkMove (some worker.blackboard.position) none]).bb.position
          = worker.blackboard.position
        ∧ (apply_intents worker env
            [mkMove (some worker.blackboard.position) none]).bb.has_moved = true) := by
  have hwb : within_bounds worker.blackboard.position (env_bounds env) = true := by
    rw [env_bounds, if_pos ⟨hw, hh⟩, within_bounds]
    exact decide_eq_true hin
  have hpre : ∀ fr : Bool, cell_free env worker.blackboard.position = fr →
      apply_move env worker.blackboard.position
        (mkMove (some worker.blackboard.position) none) (env_bounds env) worker.id
      = (if fr = false then
          ⟨false, none, some "blocked", env⟩
        else
          ⟨true, some worker.blackboard.position, none,
            move_occupy env worker.blackboard.position worker.blackboard.position worker.id⟩) := by
    intro fr hfr
    show apply_move_checks env worker.blackboard.position worker.blackboard.position
        (env_bounds env) worker.id = _
    rw [apply_move_checks, hwb, if_neg (by decide), sub_self, sub_self,
      Int.natAbs_zero, max_self, if_neg (by decide), hfr]
  constructor
  · intro hfree
    have hstep : step_intent worker (env_bounds env)
        (mkMove (some worker.blackboard.position) none) false
        worker.blackboard.position worker.blackboard env
        = ⟨.inr ⟨mkMove (some worker.blackboard.position) none, "blocked"⟩, false,
            worker.blackboard.position, worker.blackboard, env⟩ := by
      rw [step_intent,
        if_pos (show (mkMove (some worker.blackboard.position) none).type = "MOVE" from rfl),
        if_neg (show ¬(false = true) by decide)]
      dsimp only
      rw [hpre false hfree]
      rfl
    rw [apply_intents, if_neg (by simp)]
    dsimp only
    rw [hmv]
    simp only [exec_loop]
    rw [hstep]
    dsimp only
    exact ⟨rfl, rfl, rfl, hmv⟩
  · intro hfree
    have hstep : step_intent worker (env_bounds env)
        (mkMove (some worker.blackboard.position) none) false
        worker.blackboard.position worker.blackboard env
        = ⟨.inl ⟨mkMove (some worker.blackboard.position) none,
              .movedTo worker.blackboard.position⟩, true,
            worker.blackboard.position,
            ⟨worker.blackboard.position, true, worker.blackboard.intents_executed,
              worker.blackboard.social_stomach, worker.blackboard.social_stomach_capacity⟩,
            move_occupy env worker.blackboard.position worker.blackboard.position worker.id⟩ := by
      rw [step_intent,
        if_pos (show (mkMove (some worker.blackboard.position) none).type = "MOVE" from rfl),
        if_neg (show ¬(false = true) by decide)]
      dsimp only
      rw [hpre true hfree]
      rfl
    rw [apply_intents, if_neg (by simp)]
    dsimp only
    rw [hmv]
    simp only [exec_loop]
    rw [hstep]
    dsimp only
    exact ⟨rfl, rfl, rfl, rfl⟩

/-- A worker that has not yet moved, standing at the origin. -/
def WC2 : Worker :=
  { id := 1,
    blackboard := { position := (0, 0), has_moved := false, intents_executed := [],
                    social_stomach := none, social_stomach_capacity := none },
    current_social_stomach := 0, social_stomach_capacity := 0 }

/-- A 1×1 environment whose single cell is occupied by the worker itself, as
`Environment.add_ant`/`_occupy_cell` leaves it for any registered agent. -/
def EC2 : Env :=
  { width := 1, height := 1,
    grid := [[{ cell_type := "empty", ant := some 1, pheromone_level := 0,
                pheromones := [], food := none }]],
    ants := [] }

/-- The same 1×1 environment with the occupancy marker absent. -/
def EC2free : Env :=
  { width := 1, height := 1,
    grid := [[{ cell_type := "empty", ant := none, pheromone_level := 0,
                pheromones := [], food := none }]],
    ants := [] }

/-- A Move intent targeting the worker's current cell `(0,0)`. -/
def IC2 : Intent := mkMove (some (0, 0)) none

/-- Counterexample to C2 as stated: for the registered worker `WC2` (whose
own cell carries the occupancy marker, as the environment maintains for
every registered agent), the Move onto its current cell is rejected with
`blocked`, the position is unchanged and `has_moved` stays false — it is
not executed successfully. -/
theorem C2_counterexample :
    (apply_intents WC2 EC2 [IC2]).rejected = [⟨IC2, "blocked"⟩]
    ∧ (apply_intents WC2 EC2 [IC2]).executed = []
    ∧ (apply_intents WC2 EC2 [IC2]).bb.has_moved = false :=
  ⟨rfl, rfl, rfl⟩

/-- Witness for the amended C2: when the current cell carries no occupancy
marker, the zero-distance move executes, keeps the position and sets
`has_moved`. -/
theorem C2_move_to_current_cell_witness :
    (apply_intents WC2 EC2free [IC2]).executed = [⟨IC2, .movedTo (0, 0)⟩]
    ∧ (apply_intents WC2 EC2free [IC2]).rejected = []
    ∧ (apply_intents WC2 EC2free [IC2]).bb.position = (0, 0)
    ∧ (apply_intents WC2 EC2free [IC2]).bb.has_moved = true :=
  (C2_move_to_current_cell WC2 EC2free rfl (by decide) (by decide) (by decide)).2 rfl
lemma find_map_stomach_update (l : List AgentRec) (tgt : ℤ) (target : AgentRec)
    (newcur : ℤ) :
    l.find? (fun a => a.id == tgt) = some target →
    (l.map (fun a => if a.id == tgt then { a with current_stomach := newcur } else a)).find?
        (fun a => a.id == tgt)
      = some { target with current_stomach := newcur } := by
  induction l with
  | nil => intro h; cases h
  | cons a as ih =>
    intro h
    rcases hb : (a.id == tgt) with _ | _
    · simp only [List.find?, hb] at h
      simp only [List.map_cons, List.find?, hb, Bool.false_eq_true, if_false]
      exact ih h
    · simp only [List.find?, hb] at h
      injection h with h2
      subst h2
      simp [List.find?, hb]

/-- C7: for a Feed whose target exists, the executor transfers exactly
`min(social, free_capacity, max(0, amount?))` units — decrementing the
worker's social stomach and incrementing the target's stomach — and rejects
with `no_social_food` when the worker has no social food, and with
`target_full` when the target has no free capacity. -/
theorem C7_feed_transfer (worker : Worker) (bb : ExecBB) (env : Env)
    (tgt : ℤ) (amount : Option ℤ) (target : AgentRec)
    (hfind : get_ant_by_id env tgt = some target) :
    (bb_social worker bb ≤ 0 →
        apply_feed worker bb env (mkFeed tgt amount)
          = ⟨false, some "no_social_food", none, none, bb, env⟩)
    ∧ (0 < bb_social worker bb →
        target.stomach_capacity - target.current_stomach ≤ 0 →
        apply_feed worker bb env (mkFeed tgt amount)
          = ⟨false, some "target_full", none, none, bb, env⟩)
    ∧ (0 < bb_social worker bb →
        0 < target.stomach_capacity - target.current_stomach →
        (apply_feed worker bb env (mkFeed tgt amount)).ok = true
        ∧ (apply_feed worker bb env (mkFeed tgt amount)).transferred
            = some (match amount with
              | none => min (bb_social worker bb)
                  (max 0 (target.stomach_capacity - target.current_stomach))
              | some a => min (min (bb_social worker bb)
                  (max 0 (target.stomach_capacity - target.current_stomach))) (max 0 a))
        ∧ (apply_feed worker bb env (mkFeed tgt amount)).bb
            = { bb with social_stomach := some (bb_social worker bb
                - (match amount with
                  | none => min (bb_social worker bb)
                      (max 0 (target.stomach_capacity - target.current_stomach))
                  | some a => min (min (bb_social worker bb)
                      (max 0 (target.stomach_capacity - target.current_stomach))) (max 0 a))) }
        ∧ get_ant_by_id (apply_feed worker bb env (mkFeed tgt amount)).env tgt
            = some { target with current_stomach := target.current_stomach
                + (match amount with
                  | none => min (bb_social worker bb)
                      (max 0 (target.stomach_capacity - target.current_stomach))
                  | some a => min (min (bb_social worker bb)
                      (max 0 (target.stomach_capacity - target.current_stomach))) (max 0 a)) }) := by
  unfold apply_feed
  dsimp only [mkFeed, Payload.empty]
  rw [hfind]
  dsimp only
  refine ⟨fun h1 => ?_, fun h1 h2 => ?_, fun h1 h2 => ?_⟩
  · rw [if_pos h1]
  · rw [if_neg (not_le.mpr h1), if_pos (max_le le_rfl h2)]
  · rw [if_neg (not_le.mpr h1),
      if_neg (not_le.mpr (lt_of_lt_of_le h2 (le_max_right 0 _)))]
    refine ⟨rfl, rfl, rfl, ?_⟩
    show (env.ants.map _).find? _ = _
    exact find_map_stomach_update env.ants tgt target _ hfind

/-- The worker of scenario S5: `social_stomach = 5`. -/
def WC7 : Worker :=
  { id := 1,
    blackboard := { position := (0, 0), has_moved := false, intents_executed := [],
                    social_stomach := some 5, social_stomach_capacity := some 10 },
    current_social_stomach := 0, social_stomach_capacity := 0 }

/-- The environment of scenario S5: target agent 2 with capacity 10 and
current stomach 9. -/
def EC7 : Env :=
  { width := 5, height := 5, grid := [],
    ants := [{ id := 2, stomach_capacity := 10, current_stomach := 9 }] }

/-- Witness for C7: scenario S5 transfers exactly 1 unit, leaving the
worker at `social_stomach = 4` and the target at stomach 10. -/
theorem C7_feed_transfer_witness :
    (apply_feed WC7 WC7.blackboard EC7 (mkFeed 2 none)).ok = true
    ∧ (apply_feed WC7 WC7.blackboard EC7 (mkFeed 2 none)).transferred = some 1
    ∧ (apply_feed WC7 WC7.blackboard EC7 (mkFeed 2 none)).bb
        = { WC7.blackboard with social_stomach := some 4 }
    ∧ get_ant_by_id (apply_feed WC7 WC7.blackboard EC7 (mkFeed 2 none)).env 2
        = some { id := 2, stomach_capacity := 10, current_stomach := 10 } := by
  have h := (C7_feed_transfer WC7 WC7.blackboard EC7 2 none
      { id := 2, stomach_capacity := 10, current_stomach := 9 } rfl).2.2
      (by decide) (by decide)
  exact ⟨h.1, h.2.1, h.2.2.1, h.2.2.2⟩
end Exec

namespace Trig

/-- Python exceptions as far as `TriggersEvaluator.evaluate` distinguishes
them: `TypeError` (caught by the first handler and retried) versus any
other exception (caught by the generic handler). -/
inductive PyExc : Type where
  | typeError : PyExc
  | otherExc (tag : ℕ) : PyExc
deriving DecidableEq

/-- The outcome of calling a trigger function: a returned value or a raised
exception. -/
inductive CallOutcome : Type where
  | ret (v : BB.Val) : CallOutcome
  | raise (e : PyExc) : CallOutcome

/-- A registered trigger function, abstracted by its behaviour when invoked
as `fn(bb, **kwargs)` (non-empty kwargs) and as `fn(bb)`.  The blackboard
argument is fixed by the caller, so it is folded into the behaviour. -/
structure TriggerFn where
  callKw : List (String × BB.Val) → CallOutcome
  callPlain : CallOutcome

/-- Python truthiness of a JSON value, as applied by `bool(result)`. -/
def pyTruthy : BB.Val → Bool
  | .null => false
  | .bool b => b
  | .int n => n != 0
  | .str s => s ≠ ""
  | .vlist .nil => false
  | .vlist (.cons _ _) => true
  | .vdict .nil => false
  | .vdict (.cons _ _ _) => true

/-- The outcome of `TriggersEvaluator.evaluate`: a boolean, or an exception
that escaped the handlers. -/
inductive EvalOutcome : Type where
  | ok (b : Bool) : EvalOutcome
  | exc (e : PyExc) : EvalOutcome
deriving DecidableEq

/-- `result = func(blackboard, **kwargs) if kwargs else func(blackboard)`:
the kwargs call is used exactly when the kwargs dict is truthy
(non-empty). -/
def firstCall (f : TriggerFn) (kwargs : List (String × BB.Val)) : CallOutcome :=
  match kwargs with
  | [] => f.callPlain
  | _ => f.callKw kwargs

/-- `TriggersEvaluator.evaluate`: resolve the trigger (missing → `False`);
invoke it; a `TypeError` triggers a bare retry `fn(bb)` whose own
exceptions are *not* caught (the retry runs inside the `except TypeError`
handler, so the later `except Exception` clause of the same `try` does not
apply); any other exception yields `False`. -/
def evaluate (triggers : List (String × TriggerFn)) (name : String)
    (kwargs : List (String × BB.Val)) : EvalOutcome :=
  match BB.alist_get triggers name with
  | none => .ok false
  | some f =>
    match firstCall f kwargs with
    | .ret v => .ok (pyTruthy v)
    | .raise .typeError =>
        match f.callPlain with
        | .ret v => .ok (pyTruthy v)
        | .raise e => .exc e
    | .raise (.otherExc _) => .ok false

/-- C6 (amended): `evaluate` returns `false` for a missing trigger and for
any non-`TypeError` exception from the invocation, but it is *not* total: a
`TypeError` from the first call leads to a bare retry without kwargs inside
the `except TypeError` handler, and an exception raised by that retry
propagates out of `evaluate`.  Every escaping exception arises exactly this
way. -/
theorem C6_evaluate_error_handling (triggers : List (String × TriggerFn))
    (name : String) (kwargs : List (String × BB.Val)) :
    (BB.alist_get triggers name = none → evaluate triggers name kwargs = .ok false)
    ∧ (∀ f t, BB.alist_get triggers name = some f →
        firstCall f kwargs = .raise (.otherExc t) →
        evaluate triggers name kwargs = .ok false)
    ∧ (∀ e, evaluate triggers name kwargs = .exc e →
        ∃ f, BB.alist_get triggers name = some f
          ∧ firstCall f kwargs = .raise .typeError
          ∧ f.callPlain = .raise e) := by
  refine ⟨fun h => ?_, fun f t hf hr => ?_, fun e he => ?_⟩
  · rw [evaluate, h]
  · rw [evaluate, hf]
    dsimp only
    rw [hr]
  · rw [evaluate] at he
    rcases hf : BB.alist_get triggers name with _ | f
    · rw [hf] at he; cases he
    · rw [hf] at he
      dsimp only at he
      rcases hc : firstCall f kwargs with v | err
      · rw [hc] at he; cases he
      · rcases err with _ | t
        · rw [hc] at he
          rcases hp : f.callPlain with v2 | e2
          · rw [hp] at he; cases he
          · rw [hp] at he
            injection he with h2
            exact ⟨f, rfl, hc, h2 ▸ hp⟩
        · rw [hc] at he; cases he

/-- A trigger whose body always raises `TypeError`. -/
def badTrigger : TriggerFn :=
  { callKw := fun _ => .raise .typeError, callPlain := .raise .typeError }

/-- A trigger raising a non-`TypeError` exception on the plain call. -/
def otherTrigger : TriggerFn :=
  { callKw := fun _ => .ret .null, callPlain := .raise (.otherExc 7) }

/-- Counterexample to C6 as stated: a registered trigger that raises
`TypeError` makes `evaluate` re-raise instead of returning `false` — the
bare retry inside the `except TypeError` handler raises again and nothing
catches it. -/
theorem C6_counterexample :
    evaluate [("t", badTrigger)] "t" [] = .exc .typeError := rfl

/-- Witness for the amended C6: a missing trigger evaluates to `false`, and
a trigger raising a non-`TypeError` exception evaluates to `false`. -/
theorem C6_evaluate_error_handling_witness :
    evaluate [] "missing" [] = .ok false
    ∧ evaluate [("u", otherTrigger)] "u" [] = .ok false :=
  ⟨(C6_evaluate_error_handling [] "missing" []).1 rfl,
   (C6_evaluate_error_handling [("u", otherTrigger)] "u" []).2.1
      otherTrigger 7 rfl rfl⟩

end Trig

namespace BT

/-- Python `str.upper()` on ASCII status strings, as a kernel-computable
character map. -/
def pyUpper (s : String) : String := String.mk (s.data.map Char.toUpper)

/-- The shapes a step plugin result can take, as `_map_status_and_intents`
distinguishes them: a dict (string-keyed), a list/tuple of intents, an
object with `__dict__` (e.g. a dataclass intent), a string, a bool, `None`,
or any other scalar (conservative failure). -/
inductive PyRes : Type where
  | dictRes (kvs : List (String × BB.Val)) : PyRes
  | listRes (xs : List BB.Val) : PyRes
  | objRes (tag : ℕ) : PyRes
  | strRes (s : String) : PyRes
  | boolRes (b : Bool) : PyRes
  | noneRes : PyRes
  | numRes (n : ℤ) : PyRes

/-- An intent as collected into `ctx.intents`: a JSON-like value or an
opaque intent object. -/
inductive StepIntent : Type where
  | val (v : BB.Val) : StepIntent
  | objRef (tag : ℕ) : StepIntent

/-- Rebuild a dict value from its entries. -/
def toValDict : List (String × BB.Val) → BB.ValDict
  | [] => .nil
  | (k, v) :: tl => .cons k v (toValDict tl)

/-- A JSON list as a Lean list. -/
def valListToList : BB.ValList → List BB.Val
  | .nil => []
  | .cons v tl => v :: valListToList tl

/-- The status derived from a declared `status` value in a dict result:
status strings (case-insensitive, with `IN_PROGRESS`/`RUN` mapping to
`RUNNING`), `True` → `SUCCESS`, `False`/`None` → `FAILURE`, anything else →
`FAILURE`. -/
def dictStatus (sv : BB.Val) : String :=
  match sv with
  | .str s =>
      let u := pyUpper s
      if u = "SUCCESS" ∨ u = "FAILURE" ∨ u = "RUNNING" then u
      else if u = "IN_PROGRESS" ∨ u = "RUN" then "RUNNING"
      else "FAILURE"
  | .bool true => "SUCCESS"
  | .bool false => "FAILURE"
  | .null => "FAILURE"
  | _ => "FAILURE"

/-- The intents carried by a dict result: the `intents` value if present and
not `None`, listified (`[intents]` when it is not a list/tuple). -/
def dictIntents (kvs : List (String × BB.Val)) : List StepIntent :=
  match BB.alist_get kvs "intents" with
  | none => []
  | some .null => []
  | some (.vlist xs) => (valListToList xs).map .val
  | some v => [.val v]

/-- `StepLeaf._map_status_and_intents` (`bt.py`): maps a step result to a
status and the intents list.  Note that a dict carrying `status` returns its
collected intents with *every* mapped status, including `FAILURE`. -/
def map_status_and_intents : PyRes → String × List StepIntent
  | .dictRes kvs =>
    (match BB.alist_get kvs "status" with
     | some sv => (dictStatus sv, dictIntents kvs)
     | none =>
       match BB.alist_get kvs "type" with
       | some _ => ("RUNNING", [.val (.vdict (toValDict kvs))])
       | none => ("FAILURE", []))
  | .listRes xs => ("RUNNING", xs.map .val)
  | .objRes tag => ("RUNNING", [.objRef tag])
  | .strRes s =>
      let u := pyUpper s
      if u = "SUCCESS" ∨ u = "FAILURE" ∨ u = "RUNNING" then (u, [])
      else if u = "IN_PROGRESS" ∨ u = "RUN" then ("RUNNING", [])
      else ("FAILURE", [])
  | .boolRes true => ("SUCCESS", [])
  | .boolRes false => ("FAILURE", [])
  | .noneRes => ("FAILURE", [])
  | .numRes _ => ("FAILURE", [])

/-- The observable behaviour of a step function call inside
`StepLeaf.tick`: it returns a result or raises. -/
inductive StepOutcome : Type where
  | ret (r : PyRes) : StepOutcome
  | raiseExc (tag : ℕ) : StepOutcome

/-- `StepLeaf.tick` restricted to its status/intent effect: an unresolved
step name fails without touching the collected intents; otherwise the
result is mapped and — whenever the mapped intents list is non-empty,
regardless of the mapped status — extended onto `ctx.intents`; an exception
from the step yields `FAILURE` with no intents. -/
def leaf_tick (resolved : Bool) (outcome : StepOutcome)
    (collected : List StepIntent) : String × List StepIntent :=
  if resolved then
    match outcome with
    | .ret r =>
      let si := map_status_and_intents r
      match si.2 with
      | [] => (si.1, collected)
      | _ => (si.1, collected ++ si.2)
    | .raiseExc _ => ("FAILURE", collected)
  else ("FAILURE", collected)

/-- C4 (amended): a step leaf appends exactly the intents its mapped result
carries — also when the mapped status is `FAILURE` (the appending in
`StepLeaf.tick` is guarded only by non-emptiness of the intents, not by the
status) — while pure-failure shapes (bare `False`/`None`, plain status
strings, exceptions, unresolved steps) contribute nothing to
`ctx.collected_intents`. -/
theorem C4_leaf_intent_collection (outcome : StepOutcome)
    (collected : List StepIntent) :
    (∀ r, leaf_tick true (.ret r) collected
        = ((map_status_and_intents r).1, collected ++ (map_status_and_intents r).2))
    ∧ (∀ t, leaf_tick true (.raiseExc t) collected = ("FAILURE", collected))
    ∧ leaf_tick false outcome collected = ("FAILURE", collected)
    ∧ (map_status_and_intents (.boolRes false)).2 = []
    ∧ (map_status_and_intents .noneRes).2 = []
    ∧ (∀ s, (map_status_and_intents (.strRes s)).2 = []) := by
  refine ⟨fun r => ?_, fun t => rfl, rfl, rfl, rfl, fun s => ?_⟩
  · rw [leaf_tick, if_pos rfl]
    dsimp only
    rcases h : (map_status_and_intents r).2 with _ | ⟨x, xs⟩
    · rw [List.append_nil]
    · rfl
  · simp only [map_status_and_intents]
    split
    · rfl
    · split <;> rfl

/-- The dict result `{"status": "FAILURE", "intents": [{"type": "MOVE"}]}`. -/
def failureWithIntents : PyRes :=
  .dictRes [("status", .str "FAILURE"),
            ("intents", .vlist (.cons (.vdict (.cons "type" (.str "MOVE") .nil)) .nil))]

/-- Counterexample to C4 as stated: a leaf whose step returns status
`FAILURE` together with an explicit intents list still extends
`ctx.collected_intents` with those intents — a Failure leaf is not
guaranteed to contribute nothing. -/
theorem C4_counterexample :
    (leaf_tick true (.ret failureWithIntents) []).1 = "FAILURE"
    ∧ (leaf_tick true (.ret failureWithIntents) []).2
        = [.val (.vdict (.cons "type" (.str "MOVE") .nil))] :=
  ⟨rfl, rfl⟩

end BT

end AntSim
